import Mathlib

/-!
Verification of the multi-source incremental search and media cache core of
`bane-emote-board.py`, as a shallow embedding in Lean 4.

Python dicts that represent result items are embedded as the structure
`Item`; machine-level details (Qt widgets, network transport, the
filesystem) appear as explicit oracle parameters (directory listings, HTTP
responses, the string-hash function of the Python runtime).
-/

namespace BaneBoard

/-- `BATCH_SIZE = 50` (source line 36): the shared page-size constant. -/
def BATCH_SIZE : Nat := 50

/-- One search-result record, mirroring the dicts built by the sources:
keys `name`, `url`, `type`, `source`, optional `original_url`. -/
structure Item where
  name : String
  url : String
  type : String
  source : String
  original_url : Option String := none
deriving DecidableEq, Repr

/-- Python substring test `needle in haystack` on strings, via contiguous
sublist containment of the character data. An empty needle is contained in
every string, as in Python. -/
def pyIn (needle haystack : String) : Bool :=
  decide (needle.data <:+: haystack.data)

/-- ASCII lower-casing of one character. Python `str.lower` also maps
non-ASCII letters; the claims only ever lower-case file names, queries and
generated emoji names, for which the ASCII mapping is the relevant part. -/
def lowerChar (c : Char) : Char :=
  if 65 ≤ c.toNat ∧ c.toNat ≤ 90 then Char.ofNat (c.toNat + 32) else c

/-- Python `s.lower()`, character by character. -/
def strLower (s : String) : String :=
  String.mk (s.data.map lowerChar)

/-- Python `s.endswith(suffix)`: the suffix relation on character data. -/
def strEndsWith (s suffix : String) : Bool :=
  decide (suffix.data <:+ s.data)

/-- Python `s.startswith(p)` / the `glob("tmp_*")` name test: the prefix
relation on character data. -/
def strStartsWith (s p : String) : Bool :=
  decide (p.data <+: s.data)

/-- Python `s.strip()`: drop whitespace from both ends. -/
def strStrip (s : String) : String :=
  String.mk (((s.data.dropWhile Char.isWhitespace).reverse.dropWhile
    Char.isWhitespace).reverse)

/-- Code-point lexicographic order on character data (the order Python
`sorted` uses on strings). -/
def charListLe : List Char → List Char → Bool
  | [], _ => true
  | _ :: _, [] => false
  | a :: as, b :: bs => if a = b then charListLe as bs else decide (a < b)

/-- Lexicographic order on strings. -/
def strLexLe (a b : String) : Bool :=
  charListLe a.data b.data

/-- Insertion into a sorted list (for the spec-side sorted listing). -/
def insertLe (le : α → α → Bool) (a : α) : List α → List α
  | [] => [a]
  | b :: bs => if le a b then a :: b :: bs else b :: insertLe le a bs

/-- Insertion sort by a boolean order (for the spec-side sorted listing). -/
def sortLe (le : α → α → Bool) : List α → List α
  | [] => []
  | a :: as => insertLe le a (sortLe le as)

/-- `filtered[offset : offset + BATCH_SIZE]`: the page slice every
finite-catalog source takes from its (filtered) listing. -/
def slicePage (l : List α) (offset : Nat) : List α :=
  (l.drop offset).take BATCH_SIZE

/-- `next_offset = offset + len(sliced); if next_offset >= len(filtered):
next_offset = None` (source lines 335-336, 343-344, 379-380). -/
def sliceNext (l : List α) (offset : Nat) : Option Nat :=
  let n := offset + (slicePage l offset).length
  if l.length ≤ n then none else some n

/-- The combined page/next computation on a listing, for offset
`pos if pos else 0` (Python truthiness: both `None` and `0` give 0,
which coincides with `Option.getD 0` since offset 0 is the start). -/
def sliceSearch (l : List α) (pos : Option Nat) : List α × Option Nat :=
  (slicePage l (pos.getD 0), sliceNext l (pos.getD 0))

/-- The filtered emoji catalog of `EmojiSource.search` (source lines
326-332): with a non-empty query, keep items whose lowered name contains
the lowered query as a substring or whose glyph equals the query; with an
empty query the whole catalog. -/
def emojiFiltered (catalog : List Item) (query : String) : List Item :=
  if query = "" then catalog
  else
    let q := strLower query
    catalog.filter (fun it => pyIn q (strLower it.name) || q == it.url)

/-- `EmojiSource.search` (source lines 322-345), over the in-memory
catalog built at startup. Mirrors both branches of the source, including
the early `if not sliced: return [], None` of the empty-query branch. -/
def emojiSearch (catalog : List Item) (query : String) (pos : Option Nat) :
    List Item × Option Nat :=
  let offset := pos.getD 0
  if query ≠ "" then
    let filtered := emojiFiltered catalog query
    let sliced := slicePage filtered offset
    (sliced, sliceNext filtered offset)
  else
    let sliced := slicePage catalog offset
    if sliced.isEmpty then ([], none)
    else (sliced, sliceNext catalog offset)

/-- The Unicode code-point ranges of `EmojiSource._load_emojis`
(source lines 294-303). -/
def emojiRanges : List (Nat × Nat) :=
  [(0x1F600, 0x1F64F), (0x1F300, 0x1F5FF), (0x1F680, 0x1F6FF),
   (0x1F900, 0x1F9FF), (0x2600, 0x26FF), (0x2700, 0x27BF),
   (0x1F1E0, 0x1F1FF), (0x1FA70, 0x1FAFF)]

/-- All code points enumerated by the range loops, in order. -/
def emojiCodes : List Nat :=
  (emojiRanges.map (fun r => List.range' r.1 (r.2 + 1 - r.1))).flatten

/-- One step of the catalog-building loop of `_load_emojis` (source lines
305-320): `unicodedata.name` is the oracle `nameOf` (`none` models the
`ValueError` for an unassigned code point), `str.title` is the oracle
`titleF`; the `seen` set dedups by glyph. -/
def emojiBuildStep (nameOf : Nat → Option String) (titleF : String → String)
    (acc : List Item × List Char) (code : Nat) : List Item × List Char :=
  match nameOf code with
  | none => acc
  | some nm =>
    let ch := Char.ofNat code
    if ch ∈ acc.2 then acc
    else (acc.1 ++ [{ name := titleF (strLower nm), url := String.singleton ch,
                      type := "emoji", source := "Emoji" }], acc.2 ++ [ch])

/-- `EmojiSource._load_emojis` (source lines 292-320): the startup catalog. -/
def emojiBuild (nameOf : Nat → Option String) (titleF : String → String) :
    List Item :=
  (emojiCodes.foldl (emojiBuildStep nameOf titleF) ([], [])).1

/-- `f.lower().endswith(('.png', '.jpg', '.jpeg', '.gif', '.webp'))`
(source line 361). -/
def hasImageExt (lowered : String) : Bool :=
  strEndsWith lowered ".png" || strEndsWith lowered ".jpg" ||
  strEndsWith lowered ".jpeg" || strEndsWith lowered ".gif" ||
  strEndsWith lowered ".webp"

/-- The `all_files` listing of `LocalSource.search` (source lines 359-363):
image-extension entries of the `os.listdir` enumeration whose name
case-insensitively contains the query (all of them when the query is
empty), in enumeration order. -/
def localFiltered (listing : List String) (query : String) : List String :=
  listing.filter (fun f =>
    hasImageExt (strLower f) &&
      (query == "" || pyIn (strLower query) (strLower f)))

/-- `str(LOCAL_IMG_DIR / f)` and the item build of `LocalSource.search`
(source lines 368-377); `imports` is the parsed `imports.json` mapping
(empty when the file is missing or unreadable). -/
def mkLocalItem (imgDir : String) (imports : List (String × String))
    (f : String) : Item :=
  { name := f, url := imgDir ++ "/" ++ f, type := "local", source := "Local",
    original_url := (imports.lookup f) }

/-- `LocalSource.search` (source lines 348-381). `dirExists` models
`LOCAL_IMG_DIR.exists()`; `listing` is the `os.listdir` oracle. -/
def localSearch (dirExists : Bool) (listing : List String)
    (imgDir : String) (imports : List (String × String))
    (query : String) (pos : Option Nat) : List Item × Option Nat :=
  if !dirExists then ([], none)
  else
    let offset := pos.getD 0
    let all_files := localFiltered listing query
    let sliced := slicePage all_files offset
    if sliced.isEmpty then ([], none)
    else (sliced.map (mkLocalItem imgDir imports), sliceNext all_files offset)

/-- Modelled from the spec: `localSearch` as the spec's words describe it,
with the listing sorted lexicographically ("an integer offset into a
lexicographically-stable listing"); used only to compare against the
source's `localSearch`, which slices the raw `os.listdir` order. -/
def localSearchSpecLex (dirExists : Bool) (listing : List String)
    (imgDir : String) (imports : List (String × String))
    (query : String) (pos : Option Nat) : List Item × Option Nat :=
  localSearch dirExists (sortLe strLexLe listing) imgDir imports query pos

/-- Fuel-based decimal digit expansion (most significant first). With fuel
above `n` it computes the standard base-10 numeral of `n`, i.e. what both
Python `str(n)` and Lean `Nat.repr n` print for a natural number. -/
def natDigitsAux : Nat → Nat → List Char
  | 0, _ => []
  | fuel + 1, n =>
    if n < 10 then [Nat.digitChar n]
    else natDigitsAux fuel (n / 10) ++ [Nat.digitChar (n % 10)]

/-- The decimal numeral of `n`: Python `str(n)` for `n ≥ 0`. -/
def natStr (n : Nat) : String :=
  String.mk (natDigitsAux (n + 1) n)

/-- `ext = ".gif" if self.data['type'] == 'gif' else ".webp"`
(`ImageCard.load_bytes`, source line 634). -/
def extFor (t : String) : String :=
  if t = "gif" then ".gif" else ".webp"

/-- `fname = f"tmp_{abs(hash(self.data['url']))}{ext}"` (source line 635).
`h` is the string-hash oracle of the Python runtime for the current
process run (`hash` is seeded per process and is not injective). -/
def cacheFname (h : String → Int) (it : Item) : String :=
  "tmp_" ++ natStr (h it.url).natAbs ++ extFor it.type

/-- `DATA_DIR = Path.home() / ".local" / "share" / "bane-emote-board"`
(source line 26), with the home directory as a parameter. -/
def dataDir (home : String) : String :=
  home ++ "/.local/share/bane-emote-board"

/-- The resolved `local_path` of an `ImageCard` once its media is
materialized (`ImageCard.__init__` dispatch, source lines 534-545, and
`ImageCard.load_bytes`, source lines 630-638): emoji render directly
(sentinel `"EMOJI"`), local items resolve to their stored path, remote
items to the hash-derived transient cache file under the data directory. -/
def materializePath (home : String) (h : String → Int) (it : Item) : String :=
  if it.type = "emoji" then "EMOJI"
  else if it.type = "local" then it.url
  else dataDir home ++ "/" ++ cacheFname h it

/-- A Tenor media-variant object (the dict under `tinygif` / `gif`).
`url_field` is its `'url'` key; `gif_obj['url']` raises `KeyError` when it
is absent. -/
structure GifVariant where
  url_field : Option String
deriving DecidableEq, Repr

/-- One entry of `media_formats` or of the legacy `media` list. A missing
key and a falsy (empty) dict both behave as absent under Python `or` and
`if`, so both are modelled as `none`. -/
structure MediaEntry where
  tinygif : Option GifVariant := none
  gif : Option GifVariant := none
deriving DecidableEq, Repr

/-- One record of `data['results']` in a Tenor response. `media_formats`
and `media` model the `'media_formats' in item` / `'media' in item` key
tests; the two optional strings model `item.get(..., '')` fields. -/
structure TenorItem where
  media_formats : Option MediaEntry := none
  media : Option (List MediaEntry) := none
  content_description : Option String := none
  title : Option String := none
deriving DecidableEq, Repr

/-- The parsed JSON body of a Tenor response, as far as
`TenorSource.search` reads it. -/
structure TenorData where
  next : Option String := none
  next_pos : Option String := none
  results : List TenorItem := []
deriving DecidableEq, Repr

/-- The outcome of `requests.get` in `TenorSource.search`: an HTTP status
plus the outcome of `r.json()` (which may itself raise). -/
structure TenorResp where
  status : Nat
  body : Except Unit TenorData
deriving Repr

/-- Python `a or b` on two dict-lookup results that are strings or `None`
(`data.get("next") or data.get("next_pos")`, source line 240): `a` wins
unless it is falsy (`None` or the empty string). -/
def pyOrOpt (a b : Option String) : Option String :=
  match a with
  | some s => if s = "" then b else some s
  | none => b

/-- Python `a or b` on two truthy-or-absent media variants
(`formats.get('tinygif') or formats.get('gif')`, source lines 246, 251). -/
def pyOrVariant (a b : Option GifVariant) : Option GifVariant :=
  match a with
  | some v => some v
  | none => b

/-- Python `a or b` on strings (the `title` fallback chain,
source line 254): `a` unless it is empty. -/
def pyStrOr (a b : String) : String :=
  if a = "" then b else a

/-- `title = item.get('content_description', '').strip() or
item.get('title', '').strip() or "GIF"` (source line 254). -/
def tenorTitle (it : TenorItem) : String :=
  pyStrOr (strStrip (it.content_description.getD ""))
    (pyStrOr (strStrip (it.title.getD "")) "GIF")

/-- The `gif_url` computed for one Tenor item (source lines 243-252);
`.error ()` models the `KeyError` raised by `gif_obj['url']` when the
chosen variant dict has no `'url'` key. -/
def tenorGifUrl (it : TenorItem) : Except Unit (Option String) :=
  match it.media_formats with
  | some formats =>
    match pyOrVariant formats.tinygif formats.gif with
    | some gobj =>
      match gobj.url_field with
      | some u => .ok (some u)
      | none => .error ()
    | none => .ok none
  | none =>
    match it.media with
    | some media_list =>
      match media_list with
      | [] => .ok none
      | m0 :: _ =>
        match pyOrVariant m0.tinygif m0.gif with
        | some gobj =>
          match gobj.url_field with
          | some u => .ok (some u)
          | none => .error ()
        | none => .ok none
    | none => .ok none

/-- The result-accumulating loop of `TenorSource.search` (source lines
242-256). A `KeyError` inside the loop is caught by the enclosing
`except Exception: pass`, so the items appended so far are kept and the
loop stops. -/
def tenorLoop : List TenorItem → List Item → List Item
  | [], acc => acc
  | it :: rest, acc =>
    match tenorGifUrl it with
    | .error _ => acc
    | .ok gif_url =>
      match gif_url with
      | some u =>
        tenorLoop rest
          (acc ++ [{ name := tenorTitle it, url := u, type := "gif",
                     source := "Tenor" }])
      | none => tenorLoop rest acc

/-- The endpoint dialect selection of `TenorSource.search` (source lines
227-234): the default shared key uses the v1 host, a user key the v2 host. -/
def tenorHost (api_key : String) : String :=
  if api_key = "LIVDSRZULELA" then "https://g.tenor.com/v1/search"
  else "https://tenor.googleapis.com/v2/search"

/-- `TenorSource.search` (source lines 221-258). The whole network
interaction is the oracle `resp`: `.error` models `requests.get` raising
(timeout, transport error); otherwise the response status and body are
inspected exactly as in the source. The function is total: every failure
path ends in a normal return, mirroring `except Exception: pass`. -/
def tenorSearch (resp : Except Unit TenorResp) : List Item × Option String :=
  match resp with
  | .error _ => ([], none)
  | .ok r =>
    if r.status = 200 then
      match r.body with
      | .error _ => ([], none)
      | .ok data => (tenorLoop data.results [], pyOrOpt data.next data.next_pos)
    else ([], none)

/-- `any(x['url'] == self.data['url'] for x in favs)`-style url presence
test used by `ImageCard.toggle_fav` (source lines 600-604). -/
def anyUrl (u : String) (l : List Item) : Bool :=
  l.any (fun it => it.url == u)

/-- The removal loop of `ImageCard.toggle_fav` (source lines 600-604):
pop the first entry whose `url` matches. -/
def popFirstUrl (u : String) : List Item → List Item
  | [] => []
  | it :: rest => if it.url == u then rest else it :: popFirstUrl u rest

/-- `ImageCard.toggle_fav` (source lines 592-612) on the parsed favorites
list: remove the first url-match if present, else append the full record.
The surrounding file read/write is the JSON round-trip of this list. -/
def toggle_fav (x : Item) (favs : List Item) : List Item :=
  if anyUrl x.url favs then popFirstUrl x.url favs else favs ++ [x]

/-- `cleanup_temp_files` (source lines 79-85): for every entry of the data
directory matching the glob `tmp_*`, attempt `unlink`; a failing unlink is
caught and the file stays. `unlinkOk` is the deletion-success oracle,
`dir` the directory listing. The function returns the listing after the
sweep. -/
def cleanup_temp_files (dirExists : Bool) (unlinkOk : String → Bool)
    (dir : List String) : List String :=
  if dirExists then
    dir.filter (fun f => !(strStartsWith f "tmp_" && unlinkOk f))
  else dir

/-- One in-flight `SearchWorker` (source lines 386-395, created at source
line 1009): the session data it was constructed with. `gen` is a ghost
generation index counting `search()` calls; no transition reads it — it
only lets theorems speak about which search issued the fetch. -/
structure PFetch (γ : Type) where
  gen : Nat
  query : String
  srcName : String
  pos : Option γ
deriving DecidableEq, Repr

/-- The scroll-driver state of `App` (fields set in `App.__init__`,
source lines 836-839, plus the card list and the pending workers).
`γ` is the opaque cursor type; a Python-falsy cursor value (`None`, `0`,
`""`) is normalised to `none`, matching every truthiness test the driver
performs on `next_ptr`. `noResults` records the "No results found." label
occupying `search_card_widgets` (source lines 1021-1025). -/
structure AppState (γ : Type) where
  gen : Nat
  current_query : String
  current_source_name : String
  next_ptr : Option γ
  is_loading : Bool
  cards : List Item
  noResults : Bool
  pending : List (PFetch γ)
deriving DecidableEq, Repr

/-- The state after `App.__init__`: nothing loading, no cursor, no cards. -/
def appInit (γ : Type) : AppState γ :=
  { gen := 0, current_query := "", current_source_name := "",
    next_ptr := none, is_loading := false, cards := [], noResults := false,
    pending := [] }

/-- `App.load_more` (source lines 1001-1011): set the loading flag and
start a `SearchWorker` for the current query, source and cursor. -/
def load_more (s : AppState γ) : AppState γ :=
  { s with is_loading := true,
           pending := s.pending ++
             [{ gen := s.gen, query := s.current_query,
                srcName := s.current_source_name, pos := s.next_ptr }] }

/-- `App.search` (source lines 986-999): record query and source, reset
the cursor, clear the result widgets, then `load_more`. The generation
counter is the ghost session identity. -/
def startSearch (q src : String) (s : AppState γ) : AppState γ :=
  load_more { s with gen := s.gen + 1, current_query := q,
                     current_source_name := src, next_ptr := none,
                     cards := [], noResults := false }

/-- `App.display_results` (source lines 1013-1034): clear the loading
flag, store the new cursor, then either show the empty-result label (only
when nothing is displayed yet) or append the arrived cards. -/
def display_results (s : AppState γ) (results : List Item)
    (next_pos : Option γ) : AppState γ :=
  let s1 := { s with is_loading := false, next_ptr := next_pos }
  if results.isEmpty && s.cards.isEmpty && !s.noResults then
    { s1 with noResults := true }
  else
    { s1 with cards := s.cards ++ results }

/-- The UI events that drive the scroll state machine. `scrollChanged`
carries `bar.value() > bar.maximum() * 0.9` (source line 982);
`fillTimer` carries `bar.maximum() <= 0 or bar.value() >= bar.maximum() *
0.9` (source line 1041); `workerDone i res nx` is the `results_ready`
signal of the `i`-th still-running worker, with the page it fetched. -/
inductive AppEvent (γ : Type) where
  | searchClick (q src : String)
  | scrollChanged (atBottom : Bool)
  | fillTimer (cond : Bool)
  | workerDone (i : Nat) (results : List Item) (next_pos : Option γ)

/-- One transition of the driver: `App.search`, `App.check_scroll`
(source lines 980-984), `App.fill_screen_if_needed` (source lines
1036-1042) and the arrival of a worker's page. An arrival applies
`display_results` unconditionally — the source checks no session
identity — and retires that worker. -/
def appStep (s : AppState γ) : AppEvent γ → AppState γ
  | .searchClick q src => startSearch q src s
  | .scrollChanged atBottom =>
    if atBottom && (!s.is_loading && s.next_ptr.isSome) then load_more s else s
  | .fillTimer cond =>
    if s.is_loading || !s.next_ptr.isSome then s
    else if cond then load_more s else s
  | .workerDone i results next_pos =>
    if i < s.pending.length then
      { display_results s results next_pos with pending := s.pending.eraseIdx i }
    else s

/-- States reachable from startup through any event sequence (scroll
positions, timer firings and worker results are adversarial, so this is a
superset of the real schedules). -/
inductive appReachable {γ : Type} : AppState γ → Prop
  | init : appReachable (appInit γ)
  | step (s : AppState γ) (e : AppEvent γ) :
      appReachable s → appReachable (appStep s e)

/-- States of one search session: reachable from a given state without any
further `searchClick` (the single-session runs claim C1 quantifies over). -/
inductive sessionReachable {γ : Type} (s0 : AppState γ) : AppState γ → Prop
  | refl : sessionReachable s0 s0
  | scroll (s : AppState γ) (b : Bool) :
      sessionReachable s0 s → sessionReachable s0 (appStep s (.scrollChanged b))
  | fill (s : AppState γ) (b : Bool) :
      sessionReachable s0 s → sessionReachable s0 (appStep s (.fillTimer b))
  | worker (s : AppState γ) (i : Nat) (res : List Item) (nx : Option γ) :
      sessionReachable s0 s →
      sessionReachable s0 (appStep s (.workerDone i res nx))

/-- The cursor chain a caller builds by calling an adapter repeatedly and
threading `nextCursor` forward, stopping at `null`: `some pos` means the
next call will be made with cursor `pos` (`some none` is the initial call),
`none` means exhaustion was observed and no further call happens. -/
def chainIter (f : Option Nat → List β × Option Nat) :
    Nat → Option (Option Nat)
  | 0 => some none
  | k + 1 =>
    match chainIter f k with
    | none => none
    | some pos =>
      match (f pos).2 with
      | none => none
      | some c => some (some c)

/-- A constant instantiation of the per-run string-hash oracle. Python's
`hash` on strings is a seeded, non-injective 64-bit hash, so runs exist in
which two given urls collide; this oracle realises such a run. -/
def hashConst (k : Int) : String → Int :=
  fun _ => k

/-- A hash oracle that separates strings of different lengths, used to
exhibit non-colliding inputs concretely. -/
def hashLen : String → Int :=
  fun s => (s.length : Int)

/-! ### Properties of the decimal numeral -/

theorem natDigitsAux_fuel_irrel :
    ∀ (f1 f2 n : Nat), n < f1 → n < f2 →
      natDigitsAux f1 n = natDigitsAux f2 n := by
  intro f1
  induction f1 with
  | zero => intro f2 n h; omega
  | succ f ih =>
    intro f2 n h1 h2
    cases f2 with
    | zero => omega
    | succ g =>
      show natDigitsAux (f + 1) n = natDigitsAux (g + 1) n
      unfold natDigitsAux
      by_cases hn : n < 10
      · simp [hn]
      · have hd : n / 10 < n := Nat.div_lt_self (by omega) (by omega)
        simp only [hn, if_false]
        rw [ih g (n / 10) (by omega) (by omega)]

theorem natDigitsAux_ne_nil (f n : Nat) (hf : 0 < f) :
    natDigitsAux f n ≠ [] := by
  cases f with
  | zero => omega
  | succ g =>
    unfold natDigitsAux
    by_cases hn : n < 10 <;> simp [hn]

theorem natDigitsAux_len2 (f n : Nat) (h10 : 10 ≤ n) (hf : n < f) :
    2 ≤ (natDigitsAux f n).length := by
  cases f with
  | zero => omega
  | succ g =>
    unfold natDigitsAux
    have hn : ¬ n < 10 := by omega
    simp only [hn, if_false, List.length_append, List.length_cons,
      List.length_nil]
    have hne := natDigitsAux_ne_nil g (n / 10) (by omega)
    have := List.length_pos.mpr hne
    omega

theorem digitChar_fin_inj :
    ∀ (a b : Fin 10), Nat.digitChar a.val = Nat.digitChar b.val →
      a.val = b.val := by decide

theorem digitChar_fin_isDigit :
    ∀ (a : Fin 10), (Nat.digitChar a.val).isDigit = true := by decide

theorem natRepr_inj (a : Nat) :
    ∀ b : Nat, natDigitsAux (a + 1) a = natDigitsAux (b + 1) b → a = b := by
  induction a using Nat.strong_induction_on with
  | _ a ih =>
    intro b h
    by_cases ha : a < 10 <;> by_cases hb : b < 10
    · unfold natDigitsAux at h
      simp only [ha, hb, if_true] at h
      injection h with h1 _
      exact digitChar_fin_inj ⟨a, ha⟩ ⟨b, hb⟩ h1
    · have h2 := natDigitsAux_len2 (b + 1) b (by omega) (by omega)
      rw [← h] at h2
      unfold natDigitsAux at h2
      simp [ha] at h2
    · have h2 := natDigitsAux_len2 (a + 1) a (by omega) (by omega)
      rw [h] at h2
      unfold natDigitsAux at h2
      simp [hb] at h2
    · unfold natDigitsAux at h
      simp only [ha, hb, if_false] at h
      obtain ⟨h1, h2⟩ := List.append_inj' h rfl
      have e1 : natDigitsAux a (a / 10) = natDigitsAux (a / 10 + 1) (a / 10) :=
        natDigitsAux_fuel_irrel a (a / 10 + 1) (a / 10)
          (by have := Nat.div_lt_self (show 0 < a by omega)
                (show 1 < 10 by omega); omega)
          (by omega)
      have e2 : natDigitsAux b (b / 10) = natDigitsAux (b / 10 + 1) (b / 10) :=
        natDigitsAux_fuel_irrel b (b / 10 + 1) (b / 10)
          (by have := Nat.div_lt_self (show 0 < b by omega)
                (show 1 < 10 by omega); omega)
          (by omega)
      have hq := ih (a / 10)
        (Nat.div_lt_self (by omega) (by omega)) (b / 10)
        (e1.symm.trans (h1.trans e2))
      injection h2 with h3 _
      have hr : a % 10 = b % 10 :=
        digitChar_fin_inj ⟨a % 10, Nat.mod_lt a (by omega)⟩
          ⟨b % 10, Nat.mod_lt b (by omega)⟩ h3
      omega

theorem natDigitsAux_isDigit :
    ∀ (f n : Nat) (c : Char), n < f → c ∈ natDigitsAux f n →
      c.isDigit = true := by
  intro f
  induction f with
  | zero => intro n c h _; omega
  | succ g ih =>
    intro n c hn hc
    unfold natDigitsAux at hc
    by_cases h10 : n < 10
    · simp only [h10, if_true, List.mem_singleton] at hc
      rw [hc]
      exact digitChar_fin_isDigit ⟨n, h10⟩
    · simp only [h10, if_false, List.mem_append, List.mem_singleton] at hc
      rcases hc with hc | hc
      · have hd : n / 10 < n := Nat.div_lt_self (by omega) (by omega)
        exact ih (n / 10) c (by omega) hc
      · rw [hc]
        exact digitChar_fin_isDigit ⟨n % 10, Nat.mod_lt n (by omega)⟩

theorem natStr_no_dot (n : Nat) (c : Char) (hc : c ∈ (natStr n).data) :
    c ≠ '.' := by
  have hd := natDigitsAux_isDigit (n + 1) n c (by omega) hc
  intro he
  rw [he] at hd
  exact absurd hd (by decide)

theorem splitDot :
    ∀ (da db r1 r2 : List Char),
      (∀ c ∈ da, c ≠ '.') → (∀ c ∈ db, c ≠ '.') →
      da ++ '.' :: r1 = db ++ '.' :: r2 → da = db := by
  intro da
  induction da with
  | nil =>
    intro db r1 r2 _ hdb h
    cases db with
    | nil => rfl
    | cons b bs =>
      injection h with h1 _
      exact absurd h1.symm (hdb b (by simp))
  | cons a as ih =>
    intro db r1 r2 hda hdb h
    cases db with
    | nil =>
      injection h with h1 _
      exact absurd h1 (hda a (by simp))
    | cons b bs =>
      injection h with h1 h2
      have hrest := ih bs r1 r2 (fun c hc => hda c (by simp [hc]))
        (fun c hc => hdb c (by simp [hc])) h2
      rw [h1, hrest]

/-! ### Cache file naming -/

theorem str_data_append (a b : String) : (a ++ b).data = a.data ++ b.data :=
  rfl

theorem extFor_dot (t : String) : ∃ r, (extFor t).data = '.' :: r := by
  unfold extFor
  by_cases h : t = "gif"
  · rw [if_pos h]; exact ⟨['g', 'i', 'f'], rfl⟩
  · rw [if_neg h]; exact ⟨['w', 'e', 'b', 'p'], rfl⟩

theorem cacheFname_hash_inj (h : String → Int) (i j : Item)
    (hne : (h i.url).natAbs ≠ (h j.url).natAbs) :
    cacheFname h i ≠ cacheFname h j := by
  intro he
  apply hne
  have hd : ("tmp_" ++ natStr (h i.url).natAbs ++ extFor i.type).data
      = ("tmp_" ++ natStr (h j.url).natAbs ++ extFor j.type).data :=
    congrArg String.data he
  rw [str_data_append, str_data_append, str_data_append, str_data_append] at hd
  obtain ⟨r1, he1⟩ := extFor_dot i.type
  obtain ⟨r2, he2⟩ := extFor_dot j.type
  rw [he1, he2, List.append_assoc, List.append_assoc] at hd
  have htmp : "tmp_".data = ['t', 'm', 'p', '_'] := rfl
  rw [htmp] at hd
  simp only [List.cons_append, List.nil_append, List.cons.injEq, true_and] at hd
  have hsplit := splitDot _ _ _ _ (natStr_no_dot (h i.url).natAbs)
    (natStr_no_dot (h j.url).natAbs) hd
  exact natRepr_inj _ _ hsplit

/-- C6: the claim as stated is false on the code. The cache file name is
derived from `abs(hash(url))`, and Python's string `hash` is a seeded
64-bit hash, not injective (and `abs` further identifies `h` and `-h`), so
process runs exist in which two distinct urls collide; in such a run both
items resolve to the same `tmp_` file. The hash oracle below realises such
a run. -/
theorem C6_cache_collision_cex :
    (Item.mk "a" "http://e/1" "gif" "Tenor" none).url
      ≠ (Item.mk "b" "http://e/2" "gif" "Tenor" none).url
    ∧ cacheFname (hashConst 5) (Item.mk "a" "http://e/1" "gif" "Tenor" none)
      = cacheFname (hashConst 5) (Item.mk "b" "http://e/2" "gif" "Tenor" none) := by
  constructor
  · decide
  · rfl

/-- C6 (amended): for every two ResultItems whose url hashes have distinct
absolute values, the derived cache filenames are distinct — the
`tmp_<abs(hash(url))><ext>` scheme never collides except on a hash
collision of the urls. -/
theorem C6_cache_distinct (h : String → Int) (i j : Item)
    (hne : (h i.url).natAbs ≠ (h j.url).natAbs) :
    cacheFname h i ≠ cacheFname h j :=
  cacheFname_hash_inj h i j hne

theorem C6_cache_distinct_witness :
    (hashLen "http://e/1").natAbs ≠ (hashLen "http://ee/22").natAbs
    ∧ cacheFname hashLen (Item.mk "a" "http://e/1" "gif" "Tenor" none)
      ≠ cacheFname hashLen (Item.mk "b" "http://ee/22" "gif" "Tenor" none) :=
  ⟨by decide,
   C6_cache_distinct hashLen (Item.mk "a" "http://e/1" "gif" "Tenor" none)
     (Item.mk "b" "http://ee/22" "gif" "Tenor" none) (by decide)⟩

/-- C5: the claim as stated is false on the code. The cached file name is
the url hash **plus the kind's extension**, so two ResultItems with equal
url but different kinds (`gif` vs `webp`) resolve to different cache
files — this holds for every hash oracle, exhibited here at one. -/
theorem C5_cache_name_cex :
    (Item.mk "a" "http://e/x" "gif" "Tenor" none).url
      = (Item.mk "b" "http://e/x" "webp" "7TV" none).url
    ∧ cacheFname (hashConst 0) (Item.mk "a" "http://e/x" "gif" "Tenor" none)
      ≠ cacheFname (hashConst 0) (Item.mk "b" "http://e/x" "webp" "7TV" none) := by
  constructor
  · rfl
  · decide

/-- C5 (amended): two ResultItems with equal url **and equal kind** resolve
to the same cached file name and the same materialized local path; in
particular materializing the same item twice yields the same path, the
resolution being a pure function of (url, kind) within one process run. -/
theorem C5_cache_name (home : String) (h : String → Int) (i j : Item)
    (hu : i.url = j.url) (ht : i.type = j.type) :
    cacheFname h i = cacheFname h j
    ∧ materializePath home h i = materializePath home h j := by
  have hf : cacheFname h i = cacheFname h j := by
    unfold cacheFname
    rw [hu, ht]
  refine ⟨hf, ?_⟩
  unfold materializePath
  rw [hu, ht, hf]

theorem C5_cache_name_witness :
    (Item.mk "a" "http://e/x" "gif" "Tenor" none).url
      = (Item.mk "b" "http://e/x" "gif" "Tenor" (some "o")).url
    ∧ (Item.mk "a" "http://e/x" "gif" "Tenor" none).type
      = (Item.mk "b" "http://e/x" "gif" "Tenor" (some "o")).type
    ∧ cacheFname (hashConst 3) (Item.mk "a" "http://e/x" "gif" "Tenor" none)
      = cacheFname (hashConst 3) (Item.mk "b" "http://e/x" "gif" "Tenor" (some "o"))
    ∧ materializePath "/home/u" (hashConst 3)
        (Item.mk "a" "http://e/x" "gif" "Tenor" none)
      = materializePath "/home/u" (hashConst 3)
        (Item.mk "b" "http://e/x" "gif" "Tenor" (some "o")) :=
  ⟨rfl, rfl,
   (C5_cache_name "/home/u" (hashConst 3) _ _ rfl rfl).1,
   (C5_cache_name "/home/u" (hashConst 3) _ _ rfl rfl).2⟩

/-! ### Tenor soft failure -/

/-- C4: for every query/request outcome, if `requests.get` raises or the
response status is not 200, `TenorSource.search` returns `([], None)`.
No exception escapes: the embedding `tenorSearch` is a total function —
every failure path of the source ends in the normal
`return results, next_pos` because of the enclosing
`except Exception: pass`. -/
theorem C4_tenor_soft_failure (resp : Except Unit TenorResp)
    (hfail : resp = .error () ∨ ∃ r, resp = .ok r ∧ r.status ≠ 200) :
    tenorSearch resp = ([], none) := by
  rcases hfail with h | ⟨r, hr, hs⟩
  · rw [h]; rfl
  · rw [hr]
    simp [tenorSearch, hs]

theorem C4_tenor_soft_failure_witness :
    tenorSearch (.ok ⟨500, .ok {}⟩) = ([], none) :=
  C4_tenor_soft_failure (.ok ⟨500, .ok {}⟩)
    (Or.inr ⟨⟨500, .ok {}⟩, rfl, by decide⟩)

/-! ### Shutdown cleanup sweep -/

/-- C10: the shutdown sweep (`cleanup_temp_files`, called from
`App.closeEvent`) removes every file of the data directory whose name
matches the transient prefix `tmp_` — the sweep is a pure function of the
directory contents, so leftovers of prior runs or crashes are treated
exactly like files of the current run. Assuming each deletion succeeds, no
`tmp_`-prefixed file remains, no other file is touched, and every
transient cache file produced by `ImageCard.load_bytes` carries that
prefix, hence is swept. -/
theorem C10_cleanup_sweep (ok : String → Bool) (dir : List String)
    (hok : ∀ f ∈ dir, strStartsWith f "tmp_" = true → ok f = true) :
    (∀ f ∈ cleanup_temp_files true ok dir, strStartsWith f "tmp_" = false)
    ∧ (∀ f ∈ dir, strStartsWith f "tmp_" = false →
        f ∈ cleanup_temp_files true ok dir)
    ∧ (∀ (h : String → Int) (it : Item),
        strStartsWith (cacheFname h it) "tmp_" = true) := by
  refine ⟨?_, ?_, ?_⟩
  · intro f hf
    unfold cleanup_temp_files at hf
    rw [if_pos rfl] at hf
    obtain ⟨hmem, hpred⟩ := List.mem_filter.mp hf
    by_cases hs : strStartsWith f "tmp_" = true
    · rw [hok f hmem hs, hs] at hpred
      simp at hpred
    · simpa using hs
  · intro f hmem hs
    unfold cleanup_temp_files
    rw [if_pos rfl]
    refine List.mem_filter.mpr ⟨hmem, ?_⟩
    rw [hs]
    rfl
  · intro h it
    unfold strStartsWith cacheFname
    rw [str_data_append, str_data_append]
    simp only [decide_eq_true_eq]
    exact ⟨(natStr (h it.url).natAbs).data ++ (extFor it.type).data,
      (List.append_assoc _ _ _).symm⟩

theorem C10_cleanup_sweep_witness :
    (∀ f ∈ ["tmp_12.gif", "favorites.json", "tmp_9.webp"],
      strStartsWith f "tmp_" = true → (fun _ => true) f = true)
    ∧ (∀ f ∈ cleanup_temp_files true (fun _ => true)
        ["tmp_12.gif", "favorites.json", "tmp_9.webp"],
        strStartsWith f "tmp_" = false) :=
  ⟨by decide,
   (C10_cleanup_sweep (fun _ => true)
     ["tmp_12.gif", "favorites.json", "tmp_9.webp"] (by decide)).1⟩

/-! ### Favorites toggle -/

theorem anyUrl_iff (u : String) (l : List Item) :
    anyUrl u l = true ↔ u ∈ l.map (fun it => it.url) := by
  simp [anyUrl, List.any_eq_true, List.mem_map]

theorem popFirstUrl_append_of_absent (u : String) :
    ∀ (l l2 : List Item), anyUrl u l = false →
      popFirstUrl u (l ++ l2) = l ++ popFirstUrl u l2 := by
  intro l
  induction l with
  | nil => intro l2 _; rfl
  | cons a as ih =>
    intro l2 h
    simp only [anyUrl, List.any_cons, Bool.or_eq_false_iff] at h
    simp only [List.cons_append, popFirstUrl, h.1, Bool.false_eq_true,
      if_false]
    exact congrArg (a :: .) (ih l2 h.2)

theorem toggle_toggle_of_absent (x : Item) (S : List Item)
    (h : anyUrl x.url S = false) : toggle_fav x (toggle_fav x S) = S := by
  have ht1 : toggle_fav x S = S ++ [x] := by
    simp [toggle_fav, h]
  have h2 : anyUrl x.url (S ++ [x]) = true := by
    simp [anyUrl, List.any_append]
  have ht2 : toggle_fav x (S ++ [x]) = popFirstUrl x.url (S ++ [x]) := by
    simp [toggle_fav, h2]
  rw [ht1, ht2, popFirstUrl_append_of_absent x.url S [x] h]
  simp [popFirstUrl]

theorem pop_of_nodup (u : String) :
    ∀ (S : List Item), (S.map (fun it => it.url)).Nodup →
      anyUrl u S = true →
      anyUrl u (popFirstUrl u S) = false
      ∧ (u :: (popFirstUrl u S).map (fun it => it.url)).Perm
          (S.map (fun it => it.url)) := by
  intro S
  induction S with
  | nil => intro _ h; simp [anyUrl] at h
  | cons a as ih =>
    intro hnd hany
    simp only [List.map_cons, List.nodup_cons] at hnd
    by_cases hau : a.url = u
    · have hpop : popFirstUrl u (a :: as) = as := by
        simp [popFirstUrl, hau]
      rw [hpop]
      refine ⟨?_, ?_⟩
      · cases hfalse : anyUrl u as
        · rfl
        · exfalso
          have hm := (anyUrl_iff u as).mp hfalse
          rw [← hau] at hm
          exact hnd.1 hm
      · simp only [List.map_cons]
        rw [hau]
    · have hbeq : (a.url == u) = false := by simp [hau]
      have hpop : popFirstUrl u (a :: as) = a :: popFirstUrl u as := by
        simp [popFirstUrl, hbeq]
      have hany2 : anyUrl u as = true := by
        simp only [anyUrl, List.any_cons, hbeq, Bool.false_or] at hany
        exact hany
      obtain ⟨h1, h2⟩ := ih hnd.2 hany2
      rw [hpop]
      refine ⟨?_, ?_⟩
      · simp only [anyUrl, List.any_cons, hbeq, Bool.false_or]
        exact h1
      · simp only [List.map_cons]
        exact (List.Perm.swap a.url u _).trans (List.Perm.cons a.url h2)

/-- C7: toggling the same item twice returns the favorite set to the same
content, where content is compared at the spec entity level (two items
are the same entity iff their `url`s are equal): the multiset of
favorited urls is restored exactly. When the item was absent the list of
records is even restored syntactically. (The record stored for the url,
and the list order, can change across the double toggle — the removal
takes the stored record out and the re-insertion appends the toggled
record at the end — but the favorite set, keyed by url as the spec
defines identity, is unchanged.) -/
theorem C7_toggle_involution (x : Item) (S : List Item)
    (hnd : (S.map (fun it => it.url)).Nodup) :
    ((toggle_fav x (toggle_fav x S)).map (fun it => it.url)).Perm
      (S.map (fun it => it.url))
    ∧ (anyUrl x.url S = false → toggle_fav x (toggle_fav x S) = S) := by
  by_cases hx : anyUrl x.url S = true
  · have ht1 : toggle_fav x S = popFirstUrl x.url S := by
      simp [toggle_fav, hx]
    obtain ⟨h1, h2⟩ := pop_of_nodup x.url S hnd hx
    have ht2 : toggle_fav x (popFirstUrl x.url S)
        = popFirstUrl x.url S ++ [x] := by
      simp [toggle_fav, h1]
    refine ⟨?_, ?_⟩
    · rw [ht1, ht2, List.map_append]
      simp only [List.map_cons, List.map_nil]
      exact (List.perm_append_singleton _ _).trans h2
    · intro hfalse
      rw [hfalse] at hx
      cases hx
  · have hfalse : anyUrl x.url S = false := by
      cases h : anyUrl x.url S
      · rfl
      · exact absurd h hx
    have heq := toggle_toggle_of_absent x S hfalse
    rw [heq]
    exact ⟨List.Perm.refl _, fun _ => rfl⟩

theorem C7_toggle_involution_witness :
    ((([Item.mk "a" "u1" "gif" "Tenor" none,
        Item.mk "x" "u2" "webp" "7TV" none]).map
          (fun it => it.url)).Nodup)
    ∧ ((toggle_fav (Item.mk "x" "u2" "webp" "7TV" none)
        (toggle_fav (Item.mk "x" "u2" "webp" "7TV" none)
          [Item.mk "a" "u1" "gif" "Tenor" none,
           Item.mk "x" "u2" "webp" "7TV" none])).map
            (fun it => it.url)).Perm
        (([Item.mk "a" "u1" "gif" "Tenor" none,
           Item.mk "x" "u2" "webp" "7TV" none]).map (fun it => it.url)) :=
  ⟨by decide,
   (C7_toggle_involution (Item.mk "x" "u2" "webp" "7TV" none)
     [Item.mk "a" "u1" "gif" "Tenor" none,
      Item.mk "x" "u2" "webp" "7TV" none] (by decide)).1⟩

theorem popFirstUrl_sublist (u : String) :
    ∀ (S : List Item), List.Sublist (popFirstUrl u S) S := by
  intro S
  induction S with
  | nil => exact List.Sublist.refl _
  | cons a as ih =>
    by_cases h : (a.url == u) = true
    · simp only [popFirstUrl, h, if_true]
      exact List.sublist_cons_self a as
    · simp only [popFirstUrl, h, if_false]
      exact List.Sublist.cons₂ a ih

/-- C8: the at-most-one-entry-per-url invariant of the favorites store is
preserved by every toggle. A toggle on a url already present removes its
(unique) entry; a toggle on an absent url appends one entry. In
particular, two toggles of the same url without an intervening removal
consist of one insertion followed by one removal and never yield two
entries. -/
theorem C8_toggle_url_nodup (x : Item) (S : List Item)
    (hnd : (S.map (fun it => it.url)).Nodup) :
    ((toggle_fav x S).map (fun it => it.url)).Nodup := by
  by_cases hx : anyUrl x.url S = true
  · have ht : toggle_fav x S = popFirstUrl x.url S := by
      simp [toggle_fav, hx]
    rw [ht]
    exact hnd.sublist (List.Sublist.map _ (popFirstUrl_sublist x.url S))
  · have hfalse : anyUrl x.url S = false := by
      cases h : anyUrl x.url S
      · rfl
      · exact absurd h hx
    have ht : toggle_fav x S = S ++ [x] := by
      simp [toggle_fav, hfalse]
    rw [ht, List.map_append]
    simp only [List.map_cons, List.map_nil]
    rw [List.nodup_append]
    refine ⟨hnd, List.nodup_singleton _, ?_⟩
    intro u hu hmem
    simp only [List.mem_singleton] at hmem
    rw [hmem] at hu
    have := (anyUrl_iff x.url S).mpr hu
    rw [hfalse] at this
    cases this

theorem C8_toggle_url_nodup_witness :
    ((([Item.mk "a" "u1" "gif" "Tenor" none]).map
        (fun it => it.url)).Nodup)
    ∧ ((toggle_fav (Item.mk "x" "u1" "webp" "7TV" none)
        [Item.mk "a" "u1" "gif" "Tenor" none]).map
          (fun it => it.url)).Nodup :=
  ⟨by decide,
   C8_toggle_url_nodup (Item.mk "x" "u1" "webp" "7TV" none)
     [Item.mk "a" "u1" "gif" "Tenor" none] (by decide)⟩

/-! ### Cursor chains of the finite-catalog adapters -/

theorem slicePage_length (l : List α) (o : Nat) :
    (slicePage l o).length = min BATCH_SIZE (l.length - o) := by
  simp [slicePage]

theorem sliceNext_some_facts {l : List α} {o n : Nat}
    (h : sliceNext l o = some n) :
    o < n ∧ n < l.length ∧ n = o + (slicePage l o).length := by
  unfold sliceNext at h
  by_cases hc : l.length ≤ o + (slicePage l o).length
  · rw [if_pos hc] at h; cases h
  · rw [if_neg hc] at h
    injection h with h1
    have hlen := slicePage_length l o
    have hB : BATCH_SIZE = 50 := rfl
    omega

theorem chainIter_none_step (f : Option Nat → List β × Option Nat) (k : Nat)
    (h : chainIter f k = none) : chainIter f (k + 1) = none := by
  simp [chainIter, h]

theorem chainIter_none_mono (f : Option Nat → List β × Option Nat)
    (j k : Nat) (hjk : j ≤ k) (h : chainIter f j = none) :
    chainIter f k = none := by
  induction k, hjk using Nat.le_induction with
  | base => exact h
  | succ k _ ih => exact chainIter_none_step f k ih

theorem chainIter_some_mono (f : Option Nat → List β × Option Nat)
    {j k : Nat} (hjk : j ≤ k) {p : Option Nat}
    (h : chainIter f k = some p) : ∃ q, chainIter f j = some q := by
  cases hq : chainIter f j with
  | some q => exact ⟨q, rfl⟩
  | none => rw [chainIter_none_mono f j k hjk hq] at h; cases h

theorem sliceChain_lb (l : List α) :
    ∀ (k : Nat) (p : Option Nat), chainIter (sliceSearch l) k = some p →
      k ≤ p.getD 0 ∧ p.getD 0 ≤ l.length := by
  intro k
  induction k with
  | zero =>
    intro p h
    unfold chainIter at h
    injection h with h1
    rw [← h1]
    simp
  | succ k ih =>
    intro p h
    cases hk : chainIter (sliceSearch l) k with
    | none =>
      rw [chainIter_none_step (sliceSearch l) k hk] at h
      cases h
    | some pos =>
      have hpos := ih pos hk
      have key : chainIter (sliceSearch l) (k + 1)
          = (match (sliceSearch l pos).2 with
             | none => none
             | some c => some (some c)) := by
        unfold chainIter
        rw [hk]
      cases hc : (sliceSearch l pos).2 with
      | none => rw [hc] at key; rw [key] at h; cases h
      | some c =>
        rw [hc] at key
        rw [key] at h
        injection h with h1
        rw [← h1]
        simp only [Option.getD_some]
        obtain ⟨ho, hn, _⟩ :=
          sliceNext_some_facts (hc : sliceNext l (pos.getD 0) = some c)
        omega

theorem sliceChain_terminates (l : List α) :
    chainIter (sliceSearch l) (l.length + 1) = none := by
  cases h : chainIter (sliceSearch l) (l.length + 1) with
  | none => rfl
  | some p =>
    obtain ⟨h1, h2⟩ := sliceChain_lb l _ p h
    omega

theorem sliceChain_step (l : List α) {k : Nat} {p p2 : Option Nat}
    (hk : chainIter (sliceSearch l) k = some p)
    (hk2 : chainIter (sliceSearch l) (k + 1) = some p2) :
    p2.getD 0 = p.getD 0 + (slicePage l (p.getD 0)).length
    ∧ p.getD 0 < p2.getD 0 := by
  have key : chainIter (sliceSearch l) (k + 1)
      = (match (sliceSearch l p).2 with
         | none => none
         | some c => some (some c)) := by
    unfold chainIter
    rw [hk]
  cases hc : (sliceSearch l p).2 with
  | none => rw [hc] at key; rw [key] at hk2; cases hk2
  | some c =>
    rw [hc] at key
    rw [key] at hk2
    injection hk2 with h1
    obtain ⟨ho, hn, he⟩ :=
      sliceNext_some_facts (hc : sliceNext l (p.getD 0) = some c)
    rw [← h1]
    simp only [Option.getD_some]
    omega

theorem sliceChain_mono (l : List α) :
    ∀ (d j : Nat) (pj pk : Option Nat),
      chainIter (sliceSearch l) j = some pj →
      chainIter (sliceSearch l) (j + 1 + d) = some pk →
      pj.getD 0 + (slicePage l (pj.getD 0)).length ≤ pk.getD 0 := by
  intro d
  induction d with
  | zero =>
    intro j pj pk hj hk
    have := (sliceChain_step l hj hk).1
    omega
  | succ d ih =>
    intro j pj pk hj hk
    obtain ⟨pm, hm⟩ :=
      chainIter_some_mono (sliceSearch l) (Nat.le_succ (j + 1 + d)) hk
    have hle := ih j pj pm hj hm
    have hstep := (sliceChain_step l hm hk).2
    omega

theorem page_eq_drop_take (l : List α) (o : Nat) :
    slicePage l o = (l.take (o + (slicePage l o).length)).drop o := by
  rw [List.drop_take]
  have h1 : o + (slicePage l o).length - o = (slicePage l o).length := by omega
  rw [h1]
  show slicePage l o = List.take (slicePage l o).length (l.drop o)
  unfold slicePage
  have hmin : (List.take BATCH_SIZE (l.drop o)).length
      = min (List.take BATCH_SIZE (l.drop o)).length BATCH_SIZE := by
    have := List.length_take BATCH_SIZE (l.drop o)
    omega
  rw [hmin, ← List.take_take, List.take_length]

theorem page_subset_take (l : List α) (o : Nat) :
    ∀ x ∈ slicePage l o, x ∈ l.take (o + (slicePage l o).length) := by
  intro x hx
  rw [page_eq_drop_take l o] at hx
  exact List.drop_subset _ _ hx

theorem page_subset_drop (l : List α) {m o : Nat} (h : m ≤ o) :
    ∀ x ∈ slicePage l o, x ∈ l.drop m := by
  intro x hx
  have h1 : x ∈ l.drop o := List.take_subset _ _ hx
  rw [show o = m + (o - m) from by omega, ← List.drop_drop] at h1
  exact List.drop_subset _ _ h1

theorem sliceChain_disjoint (l : List α) (hnd : l.Nodup) :
    ∀ (j k : Nat) (pj pk : Option Nat), j < k →
      chainIter (sliceSearch l) j = some pj →
      chainIter (sliceSearch l) k = some pk →
      ∀ x ∈ slicePage l (pj.getD 0), x ∉ slicePage l (pk.getD 0) := by
  intro j k pj pk hjk hj hk x hxj hxk
  have hm : pj.getD 0 + (slicePage l (pj.getD 0)).length ≤ pk.getD 0 := by
    have hsplit : k = j + 1 + (k - j - 1) := by omega
    rw [hsplit] at hk
    exact sliceChain_mono l (k - j - 1) j pj pk hj hk
  have h1 := page_subset_take l (pj.getD 0) x hxj
  have h2 := page_subset_drop l hm x hxk
  exact List.disjoint_take_drop hnd (Nat.le_refl _) h1 h2

theorem slicePage_empty_next {l : List α} {o : Nat}
    (h : (slicePage l o).isEmpty = true) : sliceNext l o = none := by
  have hnil : slicePage l o = [] := by
    cases hsl : slicePage l o
    · rfl
    · rw [hsl] at h; cases h
  have hlen : l.length ≤ o := by
    have := slicePage_length l o
    rw [hnil] at this
    have hB : BATCH_SIZE = 50 := rfl
    simp at this
    omega
  unfold sliceNext
  rw [hnil]
  simp
  omega

theorem emojiSearch_eq_slice (catalog : List Item) (q : String) :
    emojiSearch catalog q = sliceSearch (emojiFiltered catalog q) := by
  funext pos
  by_cases hq : q = ""
  · subst hq
    have hf : emojiFiltered catalog "" = catalog := by
      unfold emojiFiltered
      rw [if_pos rfl]
    simp only [emojiSearch, ne_eq, not_true_eq_false, if_false, hf]
    by_cases he : (slicePage catalog (pos.getD 0)).isEmpty = true
    · rw [if_pos he]
      have hnil : slicePage catalog (pos.getD 0) = [] := by
        cases hsl : slicePage catalog (pos.getD 0)
        · rfl
        · rw [hsl] at he; cases he
      unfold sliceSearch
      rw [hnil, slicePage_empty_next he]
    · rw [if_neg he]
      rfl
  · unfold emojiSearch
    rw [if_pos (by simpa using hq)]
    rfl

theorem localSearch_eq (listing : List String) (imgDir : String)
    (imports : List (String × String)) (q : String) (pos : Option Nat) :
    localSearch true listing imgDir imports q pos
      = ((sliceSearch (localFiltered listing q) pos).1.map
          (mkLocalItem imgDir imports),
         (sliceSearch (localFiltered listing q) pos).2) := by
  unfold localSearch
  rw [if_neg (by simp)]
  by_cases he : (slicePage (localFiltered listing q) (pos.getD 0)).isEmpty = true
  · rw [if_pos he]
    have hnil : slicePage (localFiltered listing q) (pos.getD 0) = [] := by
      cases hsl : slicePage (localFiltered listing q) (pos.getD 0)
      · rfl
      · rw [hsl] at he; cases he
    unfold sliceSearch
    rw [hnil, slicePage_empty_next he]
    rfl
  · rw [if_neg he]
    rfl

theorem chainIter_congr_snd {f : Option Nat → List β × Option Nat}
    {g : Option Nat → List γ × Option Nat}
    (h : ∀ p, (f p).2 = (g p).2) : ∀ k, chainIter f k = chainIter g k := by
  intro k
  induction k with
  | zero => rfl
  | succ k ih =>
    unfold chainIter
    rw [ih]
    cases chainIter g k with
    | none => rfl
    | some pos =>
      show (match (f pos).2 with
            | none => none
            | some c => some (some c))
          = (match (g pos).2 with
            | none => none
            | some c => some (some c))
      rw [h pos]

theorem emojiBuild_inv (nameOf : Nat → Option String)
    (titleF : String → String) :
    ∀ (codes : List Nat) (acc : List Item × List Char),
      acc.1.map (fun it => it.url) = acc.2.map String.singleton →
      acc.2.Nodup →
      ((codes.foldl (emojiBuildStep nameOf titleF) acc).1.map
          (fun it => it.url)
        = (codes.foldl (emojiBuildStep nameOf titleF) acc).2.map
            String.singleton)
      ∧ (codes.foldl (emojiBuildStep nameOf titleF) acc).2.Nodup := by
  intro codes
  induction codes with
  | nil => intro acc h1 h2; exact ⟨h1, h2⟩
  | cons c cs ih =>
    intro acc h1 h2
    simp only [List.foldl_cons]
    have hstep : (emojiBuildStep nameOf titleF acc c).1.map (fun it => it.url)
        = (emojiBuildStep nameOf titleF acc c).2.map String.singleton
        ∧ (emojiBuildStep nameOf titleF acc c).2.Nodup := by
      cases hn : nameOf c with
      | none =>
        simp only [emojiBuildStep, hn]
        exact ⟨h1, h2⟩
      | some nm =>
        simp only [emojiBuildStep, hn]
        by_cases hch : Char.ofNat c ∈ acc.2
        · rw [if_pos hch]
          exact ⟨h1, h2⟩
        · rw [if_neg hch]
          constructor
          · simp only [List.map_append, List.map_cons, List.map_nil]
            rw [h1]
          · rw [List.nodup_append]
            refine ⟨h2, List.nodup_singleton _, ?_⟩
            intro a ha hmem
            simp only [List.mem_singleton] at hmem
            rw [hmem] at ha
            exact hch ha
    exact ih _ hstep.1 hstep.2

theorem string_singleton_inj :
    Function.Injective String.singleton := by
  intro a b hab
  have := congrArg String.data hab
  simpa using this

theorem emojiBuild_nodup (nameOf : Nat → Option String)
    (titleF : String → String) :
    ((emojiBuild nameOf titleF).map (fun it => it.url)).Nodup := by
  obtain ⟨h1, h2⟩ :=
    emojiBuild_inv nameOf titleF emojiCodes ([], []) rfl List.nodup_nil
  unfold emojiBuild
  rw [h1]
  exact List.Nodup.map string_singleton_inj h2

/-- C3: for the finite-catalog adapters the cursor chain terminates and
never revisits an item. First conjunct: the emoji catalog built at startup
has pairwise-distinct item urls for every name oracle (the `seen` set
dedups by glyph), so the no-duplicate hypotheses below hold for the real
catalogs: the emoji catalog by construction, the local listing because
`os.listdir` returns distinct names. Second and third conjuncts: for each
adapter, threading `nextCursor` forward from the start reaches `null`
after finitely many calls, and any two distinct pages of one chain share
no item. -/
theorem C3_finite_chain :
    (∀ (nameOf : Nat → Option String) (titleF : String → String),
      ((emojiBuild nameOf titleF).map (fun it => it.url)).Nodup)
    ∧ (∀ (catalog : List Item) (query : String),
        (catalog.map (fun it => it.url)).Nodup →
        (∃ k, chainIter (emojiSearch catalog query) k = none)
        ∧ (∀ (j k : Nat) (pj pk : Option Nat), j < k →
            chainIter (emojiSearch catalog query) j = some pj →
            chainIter (emojiSearch catalog query) k = some pk →
            ∀ x ∈ (emojiSearch catalog query pj).1,
              x ∉ (emojiSearch catalog query pk).1))
    ∧ (∀ (listing : List String) (imgDir : String)
        (imports : List (String × String)) (query : String),
        listing.Nodup →
        (∃ k, chainIter (localSearch true listing imgDir imports query) k
          = none)
        ∧ (∀ (j k : Nat) (pj pk : Option Nat), j < k →
            chainIter (localSearch true listing imgDir imports query) j
              = some pj →
            chainIter (localSearch true listing imgDir imports query) k
              = some pk →
            ∀ x ∈ (localSearch true listing imgDir imports query pj).1,
              x ∉ (localSearch true listing imgDir imports query pk).1)) := by
  refine ⟨emojiBuild_nodup, ?_, ?_⟩
  · intro catalog query hnd
    have hcat : catalog.Nodup := List.Nodup.of_map _ hnd
    have hfn : (emojiFiltered catalog query).Nodup := by
      unfold emojiFiltered
      by_cases hq : query = ""
      · rw [if_pos hq]; exact hcat
      · rw [if_neg hq]; exact List.Nodup.filter _ hcat
    have heq := emojiSearch_eq_slice catalog query
    constructor
    · refine ⟨(emojiFiltered catalog query).length + 1, ?_⟩
      rw [heq]
      exact sliceChain_terminates _
    · intro j k pj pk hjk hj hk x hxj hxk
      rw [heq] at hj hk hxj hxk
      exact sliceChain_disjoint _ hfn j k pj pk hjk hj hk x hxj hxk
  · intro listing imgDir imports query hnd
    have hfn : (localFiltered listing query).Nodup :=
      List.Nodup.filter _ hnd
    have hsnd : ∀ p, (localSearch true listing imgDir imports query p).2
        = (sliceSearch (localFiltered listing query) p).2 := by
      intro p
      rw [localSearch_eq]
    have hchain := chainIter_congr_snd hsnd
    constructor
    · refine ⟨(localFiltered listing query).length + 1, ?_⟩
      rw [hchain]
      exact sliceChain_terminates _
    · intro j k pj pk hjk hj hk x hxj hxk
      rw [hchain] at hj hk
      rw [localSearch_eq] at hxj hxk
      simp only [sliceSearch, List.mem_map] at hxj hxk
      obtain ⟨f1, hf1m, hf1e⟩ := hxj
      obtain ⟨f2, hf2m, hf2e⟩ := hxk
      have hf12 : f1 = f2 := by
        have hmm := hf1e.trans hf2e.symm
        have := congrArg Item.name hmm
        simpa [mkLocalItem] using this
      rw [hf12] at hf1m
      exact sliceChain_disjoint _ hfn j k pj pk hjk hj hk f2 hf1m hf2m

theorem C3_finite_chain_witness :
    ((([Item.mk "Grinning Face" "g" "emoji" "Emoji" none] : List Item).map
        (fun it => it.url)).Nodup)
    ∧ (∃ k, chainIter
        (emojiSearch [Item.mk "Grinning Face" "g" "emoji" "Emoji" none] "") k
        = none)
    ∧ (["a.png", "b.gif", "c.webp"] : List String).Nodup
    ∧ (∃ k, chainIter
        (localSearch true ["a.png", "b.gif", "c.webp"] "/imgs" [] "") k
        = none) :=
  ⟨by decide,
   (C3_finite_chain.2.1 [Item.mk "Grinning Face" "g" "emoji" "Emoji" none]
     "" (by decide)).1,
   by decide,
   (C3_finite_chain.2.2 ["a.png", "b.gif", "c.webp"] "/imgs" [] ""
     (by decide)).1⟩

/-! ### Local adapter paging -/

/-- C9: the claim as stated is false on the code. `LocalSource.search`
slices the raw `os.listdir` enumeration — there is no `sorted()` call —
so the listing is not lexicographically ordered: on a directory
enumerated as `["b.png", "a.png"]` the returned page differs from the
page of the spec-described lexicographically sorted listing. -/
theorem C9_lex_order_cex :
    localSearch true ["b.png", "a.png"] "/imgs" [] "" none
      ≠ localSearchSpecLex true ["b.png", "a.png"] "/imgs" [] "" none := by
  decide

/-- C9 (amended): the cursor is an integer offset into the listing of
image-extension files whose name case-insensitively contains the query
(all such files when the query is empty), **in directory-enumeration
order as returned by the filesystem, not lexicographically sorted**; each
call returns the next page-size slice of that listing, and
`nextCursor = null` exactly when offset plus the returned page length
reaches the total matching count — in particular a directory with 3
matching files and page size 50 yields all 3 items and `null` at once. -/
theorem C9_local_offset_paging :
    (∀ (listing : List String) (imgDir : String)
       (imports : List (String × String)) (query : String)
       (pos : Option Nat),
       (localSearch true listing imgDir imports query pos).1
         = (((localFiltered listing query).drop (pos.getD 0)).take
             BATCH_SIZE).map (mkLocalItem imgDir imports)
       ∧ ((localSearch true listing imgDir imports query pos).2 = none ↔
           (localFiltered listing query).length ≤
             pos.getD 0
               + (localSearch true listing imgDir imports query pos).1.length))
    ∧ localSearch true ["a.png", "b.gif", "c.webp"] "/imgs" [] "" none
        = ([mkLocalItem "/imgs" [] "a.png", mkLocalItem "/imgs" [] "b.gif",
            mkLocalItem "/imgs" [] "c.webp"], none) := by
  constructor
  · intro listing imgDir imports query pos
    rw [localSearch_eq]
    constructor
    · rfl
    · simp only [sliceSearch, List.length_map]
      unfold sliceNext
      by_cases hc : (localFiltered listing query).length ≤
          pos.getD 0
            + (slicePage (localFiltered listing query) (pos.getD 0)).length
      · simp [hc]
      · simp [hc]
  · decide

/-! ### Scroll driver -/

theorem display_results_is_loading {γ : Type} (s : AppState γ)
    (res : List Item) (nx : Option γ) :
    (display_results s res nx).is_loading = false := by
  unfold display_results
  split <;> rfl

theorem display_results_next_ptr {γ : Type} (s : AppState γ)
    (res : List Item) (nx : Option γ) :
    (display_results s res nx).next_ptr = nx := by
  unfold display_results
  split <;> rfl

theorem display_results_pending {γ : Type} (s : AppState γ)
    (res : List Item) (nx : Option γ) :
    (display_results s res nx).pending = s.pending := by
  unfold display_results
  split <;> rfl

theorem display_results_cards {γ : Type} (s : AppState γ)
    (res : List Item) (nx : Option γ) (h : res ≠ []) :
    (display_results s res nx).cards = s.cards ++ res := by
  unfold display_results
  have he : res.isEmpty = false := by
    cases res
    · exact absurd rfl h
    · rfl
  rw [he]
  simp

theorem step_noop {γ : Type} (s : AppState γ) (b : Bool)
    (h : s.is_loading = true ∨ s.next_ptr = none) :
    appStep s (.scrollChanged b) = s ∧ appStep s (.fillTimer b) = s := by
  rcases h with h | h <;> simp [appStep, h]

/-- C1: within one session (no further `search()` call), whenever the
loading flag is set or the cursor has signaled exhaustion, both
`check_scroll` and `fill_screen_if_needed` are no-ops, and consequently
in every reachable state of the session the number of in-flight page
fetches equals the loading flag — in particular it never exceeds one. -/
theorem C1_single_inflight {γ : Type} (q src : String) (s : AppState γ)
    (hr : sessionReachable (startSearch q src (appInit γ)) s) :
    (s.pending.length = if s.is_loading = true then 1 else 0)
    ∧ s.pending.length ≤ 1
    ∧ (∀ b : Bool, s.is_loading = true ∨ s.next_ptr = none →
        appStep s (.scrollChanged b) = s ∧ appStep s (.fillTimer b) = s) := by
  have hinv : s.pending.length = if s.is_loading = true then 1 else 0 := by
    induction hr with
    | refl => rfl
    | scroll s2 b hr2 ih =>
      by_cases hc : (b && (!s2.is_loading && s2.next_ptr.isSome)) = true
      · have hload : s2.is_loading = false := by
          simp only [Bool.and_eq_true, Bool.not_eq_true'] at hc
          exact hc.2.1
        rw [hload] at ih
        simp only [Bool.false_eq_true, if_false] at ih
        simp [appStep, hc, load_more, ih]
      · simp only [appStep, hc, if_false]
        exact ih
    | fill s2 b hr2 ih =>
      cases h1 : (s2.is_loading || !s2.next_ptr.isSome) with
      | true =>
        simp only [appStep, h1, if_true]
        exact ih
      | false =>
        have hload : s2.is_loading = false := by
          cases hl : s2.is_loading
          · rfl
          · rw [hl] at h1; simp at h1
        have hsome : s2.next_ptr.isSome = true := by
          cases hs : s2.next_ptr.isSome
          · rw [hload, hs] at h1
            simp at h1
          · rfl
        rw [hload] at ih
        simp only [Bool.false_eq_true, if_false] at ih
        cases h2 : b with
        | false => simp [appStep, h2, hload, hsome, ih]
        | true => simp [appStep, h2, load_more, hload, hsome, ih]
    | worker s2 i res nx hr2 ih =>
      by_cases hi : i < s2.pending.length
      · have hlen1 : s2.pending.length = 1 := by
          by_cases hl : s2.is_loading = true
          · rw [hl, if_pos rfl] at ih
            exact ih
          · rw [if_neg hl] at ih
            omega
        have hpend : (appStep s2 (AppEvent.workerDone i res nx)).pending
            = s2.pending.eraseIdx i := by
          simp [appStep, hi]
        have hload : (appStep s2 (AppEvent.workerDone i res nx)).is_loading
            = false := by
          simp [appStep, hi, display_results_is_loading]
        rw [hpend, hload]
        simp only [Bool.false_eq_true, if_false]
        rw [List.length_eraseIdx_of_lt hi]
        omega
      · simp only [appStep, hi, if_false]
        exact ih
  refine ⟨hinv, by rw [hinv]; split <;> omega, fun b h => step_noop s b h⟩

theorem C1_single_inflight_witness :
    ((startSearch "cats" "Tenor" (appInit Nat)).pending.length
        = if (startSearch "cats" "Tenor" (appInit Nat)).is_loading = true
          then 1 else 0)
    ∧ (startSearch "cats" "Tenor" (appInit Nat)).pending.length ≤ 1
    ∧ (∀ b : Bool,
        (startSearch "cats" "Tenor" (appInit Nat)).is_loading = true
          ∨ (startSearch "cats" "Tenor" (appInit Nat)).next_ptr = none →
        appStep (startSearch "cats" "Tenor" (appInit Nat)) (.scrollChanged b)
            = startSearch "cats" "Tenor" (appInit Nat)
        ∧ appStep (startSearch "cats" "Tenor" (appInit Nat)) (.fillTimer b)
            = startSearch "cats" "Tenor" (appInit Nat)) :=
  C1_single_inflight "cats" "Tenor" (startSearch "cats" "Tenor" (appInit Nat))
    sessionReachable.refl

/-- C2: the claim as stated is false on the code. `App.display_results`
performs no session-identity check: when a second search starts while the
first session's page fetch is still in flight, the old worker stays
connected to `display_results`, and its late page is applied to the new
session — its items are appended to the new (cleared) card list and its
cursor overwrites the new session's cursor. Concretely: search "cats"
(generation 1), then search "dogs" (generation 2), then the generation-1
worker delivers one item with cursor 7: the item lands in the "dogs" card
list and `next_ptr` becomes 7. -/
theorem C2_stale_applied_cex :
    ((appStep (appStep (appStep (appInit Nat)
        (.searchClick "cats" "Tenor")) (.searchClick "dogs" "Tenor"))
        (.workerDone 0 [Item.mk "late" "http://t/a.gif" "gif" "Tenor" none]
          (some 7))).cards
      = [Item.mk "late" "http://t/a.gif" "gif" "Tenor" none])
    ∧ ((appStep (appStep (appStep (appInit Nat)
        (.searchClick "cats" "Tenor")) (.searchClick "dogs" "Tenor"))
        (.workerDone 0 [Item.mk "late" "http://t/a.gif" "gif" "Tenor" none]
          (some 7))).next_ptr = some 7)
    ∧ ((appStep (appStep (appInit Nat) (.searchClick "cats" "Tenor"))
        (.searchClick "dogs" "Tenor")).pending.map PFetch.gen = [1, 2])
    ∧ ((appStep (appStep (appInit Nat) (.searchClick "cats" "Tenor"))
        (.searchClick "dogs" "Tenor")).gen = 2) := by
  decide

/-- C2 (amended): starting a new search does **not** invalidate the
previous session. The arrival of any still-pending worker — including one
whose generation differs from the current search generation — is applied
unconditionally: its cursor overwrites the current cursor and its items
(when non-empty) are appended to the current result list. There is no
staleness detection in the code. -/
theorem C2_stale_applied {γ : Type} (s : AppState γ) (i : Nat)
    (res : List Item) (nx : Option γ) (hi : i < s.pending.length)
    (hreach : appReachable s)
    (hstale : (s.pending.get ⟨i, hi⟩).gen ≠ s.gen) :
    (appStep s (.workerDone i res nx)).next_ptr = nx
    ∧ (res ≠ [] → (appStep s (.workerDone i res nx)).cards
        = s.cards ++ res) := by
  constructor
  · have hp : (appStep s (.workerDone i res nx)).next_ptr
        = (display_results s res nx).next_ptr := by
      simp [appStep, hi]
    rw [hp, display_results_next_ptr]
  · intro hres
    have hp : (appStep s (.workerDone i res nx)).cards
        = (display_results s res nx).cards := by
      simp [appStep, hi]
    rw [hp, display_results_cards s res nx hres]

theorem C2_stale_applied_witness :
    ((appStep (appStep (appStep (appInit Nat)
        (.searchClick "cats" "Tenor")) (.searchClick "dogs" "Tenor"))
        (.workerDone 0 [Item.mk "late" "u" "gif" "Tenor" none]
          (some 9))).next_ptr = some 9)
    ∧ ([Item.mk "late" "u" "gif" "Tenor" none] ≠ ([] : List Item) →
        (appStep (appStep (appStep (appInit Nat)
          (.searchClick "cats" "Tenor")) (.searchClick "dogs" "Tenor"))
          (.workerDone 0 [Item.mk "late" "u" "gif" "Tenor" none]
            (some 9))).cards
        = (appStep (appStep (appInit Nat) (.searchClick "cats" "Tenor"))
            (.searchClick "dogs" "Tenor")).cards
          ++ [Item.mk "late" "u" "gif" "Tenor" none]) :=
  C2_stale_applied
    (appStep (appStep (appInit Nat) (.searchClick "cats" "Tenor"))
      (.searchClick "dogs" "Tenor"))
    0 [Item.mk "late" "u" "gif" "Tenor" none] (some 9)
    (by decide)
    (appReachable.step _ (.searchClick "dogs" "Tenor")
      (appReachable.step _ (.searchClick "cats" "Tenor") appReachable.init))
    (by decide)

end BaneBoard

